import Mathlib

/-!
Verification of the core logic of `mkdbupgrade`, a tool that builds a
consolidated SQL upgrade script from the difference between two git
branches of an Evergreen repository.

The development shallowly embeds the Rust sources (`src/lib.rs`,
`src/main.rs`):

* a branch's tree snapshot is the inductive `GObj` (git trees are named
  lists of blobs and subtrees); `getPath` models libgit2's
  `Tree::get_path`, `walkNames` models `Tree::walk` in pre-order;
* `get_branch_upgrades`, `get_upgrades`, `get_branch_version`,
  `write_file` and `write_upgrade` are translated from `lib.rs`
  (file contents are Lean `String`s; the writers return the text they
  append to the output);
* `main_model` is translated from `main.rs`'s `main`, with the ambient
  world (filesystem, git lookups, the external regex compiler) passed
  in explicitly as the structure `MainInput`.
-/

namespace Mkdbupgrade

/-! ## Git tree snapshots -/

mutual

/-- A git object as far as tree traversal cares: a blob, or a tree of
named child objects (in tree order). -/
inductive GObj where
  | blob : GObj
  | tree : GEntries → GObj

/-- The entries of a git tree: an ordered association list of entry
names and child objects. -/
inductive GEntries where
  | nil : GEntries
  | cons : String → GObj → GEntries → GEntries

end

/-- Find the child object of a tree with the given entry name
(models the per-component lookup inside libgit2's `Tree::get_path`). -/
def lookupEntry (name : String) : GEntries → Option GObj
  | .nil => none
  | .cons n o rest => if n = name then some o else lookupEntry name rest

/-- Walk down a snapshot along path components, as libgit2's
`Tree::get_path` does: a missing component, or a non-tree met before the
last component, is an error. -/
def getPath : GObj → List String → Except Unit GObj
  | o, [] => .ok o
  | GObj.blob, _ :: _ => .error ()
  | GObj.tree entries, c :: rest =>
      match lookupEntry c entries with
      | none => .error ()
      | some child => getPath child rest

/-- Pre-order walk of a tree, collecting each entry's own (leaf) name:
an entry is visited before its children, as `TreeWalkMode::PreOrder`
visits them in `lib.rs`'s `get_branch_upgrades`. -/
def walkNames : GEntries → List String
  | .nil => []
  | .cons n GObj.blob rest => n :: walkNames rest
  | .cons n (GObj.tree sub) rest => n :: (walkNames sub ++ walkNames rest)

/-- The fixed upgrade directory, as its path components. -/
def upgradeDirComponents : List String := ["Open-ILS", "src", "sql", "Pg", "upgrade"]

/-- The fixed upgrade directory as the string `dirpath` of `lib.rs`. -/
def upgradeDirPath : String := "Open-ILS/src/sql/Pg/upgrade"

/-- Translation of `lib.rs::get_branch_upgrades`: look the fixed upgrade
directory up in the branch's snapshot; a lookup error is returned as an
error; if the entry is a tree, walk it and join the fixed directory
prefix with each visited entry's leaf name; if the entry is not a tree,
nothing is pushed and the (empty) list is returned. -/
def get_branch_upgrades (root : GObj) : Except Unit (List String) :=
  match getPath root upgradeDirComponents with
  | .error e => .error e
  | .ok GObj.blob => .ok []
  | .ok (GObj.tree entries) =>
      .ok ((walkNames entries).map (fun n => upgradeDirPath ++ "/" ++ n))

/-- Translation of `lib.rs::get_upgrades`: enumerate both branches and
keep the target's paths that the source's list does not contain. -/
def get_upgrades (fromS toS : GObj) : Except Unit (List String) :=
  match get_branch_upgrades fromS with
  | .error e => .error e
  | .ok from_upgrades =>
      match get_branch_upgrades toS with
      | .error e => .error e
      | .ok to_upgrades =>
          .ok (to_upgrades.filter (fun item => !(from_upgrades.contains item)))

/-! ## Concrete snapshots used to exercise the enumeration and the diff -/

/-- Tree entries made of blobs with the given names. -/
def blobEntries : List String → GEntries
  | [] => .nil
  | n :: rest => .cons n GObj.blob (blobEntries rest)

/-- A one-entry tree layer. -/
def layer (name : String) (child : GObj) : GObj :=
  GObj.tree (.cons name child .nil)

/-- A snapshot holding the fixed upgrade directory with the given file
names as blobs. -/
def snapUpg (names : List String) : GObj :=
  layer "Open-ILS" (layer "src" (layer "sql" (layer "Pg"
    (layer "upgrade" (GObj.tree (blobEntries names))))))

/-- Source-branch snapshot with two upgrade files. -/
def snapFrom : GObj := snapUpg ["0001.sql", "0002.sql"]

/-- Target-branch snapshot with the source's two files plus two new ones. -/
def snapTo : GObj := snapUpg ["0001.sql", "0002.sql", "0003.sql", "0004.sql"]

/-- A snapshot in which the path of the upgrade directory exists but is a
blob rather than a directory. -/
def snapUpgBlob : GObj :=
  layer "Open-ILS" (layer "src" (layer "sql" (layer "Pg"
    (layer "upgrade" GObj.blob))))

/-! ## FileWriter: whole-file and upgrade copy modes

File contents are strings (`read_to_string` only succeeds on text);
a writer returns the text it appends to the output file. Lines are
computed over the underlying character list, mirroring Rust's
`str::split_terminator` over the newline separator. -/

/-- Prepend a character to the first piece of a split (the state of the
splitter while scanning a non-separator character). -/
def consHead (c : Char) : List (List Char) → List (List Char)
  | [] => [[c]]
  | l :: ls => (c :: l) :: ls

/-- Split a character list at every newline, keeping empty pieces: the
semantics of `str::split` on the separator. -/
def splitNl : List Char → List (List Char)
  | [] => [[]]
  | c :: cs => if c = '\n' then [] :: splitNl cs else consHead c (splitNl cs)

/-- Rust `str::split_terminator`: like `split`, but a final empty piece
(the text is empty or ends with the separator) is dropped. -/
def splitTerminatorNl (cs : List Char) : List (List Char) :=
  if (splitNl cs).getLast? = some [] then (splitNl cs).dropLast else splitNl cs

/-- The regex of `lib.rs::write_upgrade` anchored at line start,
`BEGIN;` or `COMMIT;`: true when the line begins with either marker. -/
def isTxnBoundary (l : List Char) : Bool :=
  "BEGIN;".data.isPrefixOf l || "COMMIT;".data.isPrefixOf l

/-- Character-list core of `lib.rs::write_upgrade`: split the content on
newlines (dropping a trailing empty piece), skip every line that begins
with `BEGIN;` or `COMMIT;`, and write each remaining line followed by a
newline (`writeln!`). -/
def write_upgradeL (cs : List Char) : List Char :=
  (((splitTerminatorNl cs).filter (fun l => !(isTxnBoundary l))).map
    (fun l => l ++ ['\n'])).flatten

/-- Translation of `lib.rs::write_upgrade` as a content transformation:
the text appended to the output for an input file with this content. -/
def write_upgrade (s : String) : String := ⟨write_upgradeL s.data⟩

/-- Translation of `lib.rs::write_file`: the whole content is written
unchanged (`read_to_string` then `write_all` of the same bytes). -/
def write_file (s : String) : String := s

/-! ## VersionExtractor -/

/-- The one-or-two-digit alternatives of the regex piece matching one or
two decimal digits at the front of the input, in the order a
leftmost-first (Perl-like, greedy) engine tries them: two digits first,
then one. Each alternative is the digits consumed paired with the rest
of the input. `\d` is modelled as an ASCII digit. -/
def digitAlts : List Char → List (List Char × List Char)
  | c1 :: c2 :: rest =>
      if c1.isDigit && c2.isDigit then [([c1, c2], rest), ([c1], c2 :: rest)]
      else if c1.isDigit then [([c1], c2 :: rest)]
      else []
  | [c1] => if c1.isDigit then [([c1], [])] else []
  | [] => []

/-- Match the tail of the version regex just after an initial
underscore — digits, underscore, digits, underscore, digits — with the
backtracking priority of the regex crate's leftmost-first semantics;
returns the three capture groups. -/
def matchAfterUnderscore (cs : List Char) : Option (List Char × List Char × List Char) :=
  (digitAlts cs).findSome? fun xr =>
    match xr.2 with
    | '_' :: r2 =>
        (digitAlts r2).findSome? fun yr =>
          match yr.2 with
          | '_' :: r4 =>
              match digitAlts r4 with
              | zr :: _ => some (xr.1, yr.1, zr.1)
              | [] => none
          | _ => none
    | _ => none

/-- Scan for the first (leftmost) occurrence of the version pattern
underscore-digits-underscore-digits-underscore-digits, as
`Regex::captures` finds it in `lib.rs::get_branch_version`. -/
def findVersionCaps : List Char → Option (List Char × List Char × List Char)
  | [] => none
  | c :: cs =>
      if c = '_' then
        match matchAfterUnderscore cs with
        | some r => some r
        | none => findVersionCaps cs
      else findVersionCaps cs

/-- The formatted string `X.Y.Z` built from the three captures. -/
def versionString (x y z : List Char) : String :=
  ⟨x ++ '.' :: (y ++ '.' :: z)⟩

/-- Translation of `lib.rs::get_branch_version`: the branch's `name()`
result is either `Ok(Some(s))`, `Ok(None)` or `Err`; in the latter two
cases the result is absent; otherwise the first substring of the name
matching the version pattern yields the dotted version string, and no
match yields an absent result. -/
def get_branch_version (nameRes : Except Unit (Option String)) : Option String :=
  match nameRes with
  | .ok (some s) =>
      match findVersionCaps s.data with
      | some (x, y, z) => some (versionString x y z)
      | none => none
  | .ok none => none
  | .error _ => none

/-! ## ScriptAssembler: the model of `main.rs::main`

The ambient world is passed in explicitly: what the git queries answer,
which paths exist on disk, what each input file contains, and what the
external regex compiler makes of a pattern string (`Regex::new` is the
regex crate's, so it enters the model as an oracle). -/

/-- Concatenation of a list of written pieces, in order. -/
def joinStr : List String → String
  | [] => ""
  | s :: rest => s ++ joinStr rest

/-- A single-quote character as a string (the output's `eg_version` line
quotes the version with three of these). -/
def sq : String := ⟨[Char.ofNat 39]⟩

/-- Translation of the `restr` construction in `main.rs`: start from an
opening non-capturing group, push each move fragment, separating
consecutive fragments with a pipe, and close the group. -/
def buildPattern (v : List String) : String :=
  (v.foldl (fun acc upgrade =>
    ((if acc.2 then acc.1 ++ "|" else acc.1) ++ upgrade, true)) ("(?:", false)).1 ++ ")"

/-- Modelled from the spec's words, for comparison with `buildPattern`:
the fragments joined by the pipe (regex OR) separator. -/
def orJoinSpec : List String → String
  | [] => ""
  | [x] => x
  | x :: xs => x ++ "|" ++ orJoinSpec xs

/-- A pipe before each fragment: the tail of a pipe-separated join. -/
def pipeJoin : List String → String
  | [] => ""
  | y :: ys => "|" ++ (y ++ pipeJoin ys)

/-- The upgrade loop of `main.rs`: for each new-upgrade path in order,
either divert it to the moved list (when the move pattern matches) or
append its upgrade-mode copy to the output. The accumulator is the
output text so far and the moved list so far. -/
def upgradeLoop (movedre : Option (String → Bool)) (contents : String → String) :
    List String → String × List String → String × List String
  | [], acc => acc
  | file :: rest, acc =>
      let skipAcc : Bool × List String :=
        match movedre with
        | some re => if re file then (true, acc.2 ++ [file]) else (false, acc.2)
        | none => (false, acc.2)
      let out := if skipAcc.1 then acc.1 else acc.1 ++ write_upgrade (contents file)
      upgradeLoop movedre contents rest (out, skipAcc.2)

/-- How a run of the program ends: a diagnosed failure (`exit(1)`), a
panic (an `unwrap` failed), or success with the output file's final
content. `created` records whether `File::create` had already been
called on the output path — `false` means the filesystem was never
touched. -/
inductive MainOutcome where
  | fatal (created : Bool)
  | panicked (created : Bool)
  | ok (content : String)
deriving DecidableEq

/-- The command line and the ambient world of one run of `main`. -/
structure MainInput where
  /-- `Repository::open("./")` succeeds. -/
  isRepo : Bool
  /-- the repository's HEAD is a branch. -/
  headIsBranch : Bool
  /-- what `to_branch.name()` answers. -/
  toBranchNameRes : Except Unit (Option String)
  /-- the `Open-ILS` subdirectory exists and is a directory. -/
  openIls : Bool
  /-- `find_branch` finds the `--from-branch` argument. -/
  fromBranchFound : Bool
  /-- what `from_branch.name()` answers. -/
  fromBranchNameRes : Except Unit (Option String)
  /-- the `--version` argument. -/
  cliVersion : Option String
  /-- the `--from-version` argument. -/
  cliFromVersion : Option String
  /-- the repeated `--move` arguments. -/
  cliMoved : Option (List String)
  /-- the repeated `--append-file` arguments. -/
  cliAppendFile : Option (List String)
  /-- the repeated `--prepend-file` arguments. -/
  cliPrependFile : Option (List String)
  /-- the `--output-directory` argument (clap supplies the default). -/
  outputDirectory : String
  /-- the `--prefix` argument. -/
  cliPrefixArg : Option String
  /-- the `--clobber` flag. -/
  clobber : Bool
  /-- the `--review` flag. -/
  review : Bool
  /-- `review_file` (EDITOR lookup and spawn) succeeds. -/
  reviewOk : Bool
  /-- which paths exist on disk. -/
  pathExists : String → Bool
  /-- the `--from-branch`'s tree snapshot. -/
  fromSnapshot : GObj
  /-- the current (target) branch's tree snapshot. -/
  toSnapshot : GObj
  /-- the external regex compiler: the matcher for a pattern string, or
  `none` when `Regex::new` would return an error. -/
  regexCompile : String → Option (String → Bool)
  /-- each input file's content, by path. -/
  contents : String → String

/-- The target version: the `--version` argument, else the version
extracted from the current branch's name. -/
def computedVersion (i : MainInput) : Option String :=
  match i.cliVersion with
  | some v => some v
  | none => get_branch_version i.toBranchNameRes

/-- The source version: the `--from-version` argument, else the version
extracted from the source branch's name. -/
def computedFromVersion (i : MainInput) : Option String :=
  match i.cliFromVersion with
  | some v => some v
  | none => get_branch_version i.fromBranchNameRes

/-- The output file name, with the optional `--prefix` prepended. -/
def upgradeFilename (i : MainInput) (from_version version : String) : String :=
  match i.cliPrefixArg with
  | some p => p ++ from_version ++ "-" ++ version ++ "-upgrade-db.sql"
  | none => from_version ++ "-" ++ version ++ "-upgrade-db.sql"

/-- The computed output path, when both versions are derivable. -/
def computedOutPath (i : MainInput) : Option String :=
  match computedVersion i, computedFromVersion i with
  | some v, some fv => some (i.outputDirectory ++ "/" ++ upgradeFilename i fv v)
  | _, _ => none

/-- The prepended-code section (empty when no `--prepend-file`). -/
def sectionPrepended (i : MainInput) : String :=
  match i.cliPrependFile with
  | some v =>
      "-- Start of prepended code\n"
      ++ joinStr (v.map (fun f => write_file (i.contents f)))
      ++ "-- End of prepended code\n\n"
  | none => ""

/-- The run from the upgrade loop onwards: loop over the new upgrades,
close the transaction, write the moved section when any upgrade was
diverted, the auditor-update statement, and the appended-code section;
then optionally review the finished file. -/
def mainBody (i : MainInput) (out1 : String) (movedre : Option (String → Bool))
    (upgrades : List String) : MainOutcome :=
  let r := upgradeLoop movedre i.contents upgrades (out1, [])
  let out2 := r.1 ++ "COMMIT;\n\n"
  let out3 :=
    if r.2.length > 0 then
      out2 ++ "-- Start of moved upgrades\n"
        ++ joinStr (r.2.map (fun f => write_file (i.contents f)))
        ++ "-- End of moved upgrades\n\n"
    else out2
  let out4 := out3 ++ "-- Update auditor tables to catch changes in source tables.\n"
      ++ "-- Can be removed/skipped if there were no schema changes.\n"
      ++ "SELECT auditor.update_auditors();\n"
  let out5 :=
    match i.cliAppendFile with
    | some v =>
        out4 ++ "\n-- Start of appended code\n"
        ++ joinStr (v.map (fun f => write_file (i.contents f)))
        ++ "-- End of appended code\n"
    | none => out4
  if i.review && !i.reviewOk then .fatal true else .ok out5

/-- The run from the creation of the output file onwards: write the
preamble (prepended section, direction comment, `eg_version` setting,
transaction begin), compile the move pattern when `--move` was given —
a failed compilation is an unguarded `unwrap`, i.e. a panic — and hand
over to the body. -/
def mainAfterCreate (i : MainInput) (version from_version : String)
    (upgrades : List String) : MainOutcome :=
  let out1 := sectionPrepended i
      ++ "-- Upgrade script for Evergreen " ++ from_version
      ++ " to " ++ version ++ "\n"
      ++ "\\set eg_version " ++ sq ++ sq ++ sq ++ version ++ sq ++ sq ++ sq ++ "\n"
      ++ "\nBEGIN;\n"
  match i.cliMoved with
  | some frags =>
      match i.regexCompile (buildPattern frags) with
      | none => .panicked true
      | some re => mainBody i out1 (some re) upgrades
  | none => mainBody i out1 none upgrades

/-- Translation of `main.rs::main`, check by check in source order:
repository, current branch, `Open-ILS` directory, source branch, the
two versions, the output-path collision, the new-upgrade list and its
emptiness; only then is the output file created, the preamble written,
the move pattern compiled (an unguarded `unwrap`), and the body
assembled. -/
def main_model (i : MainInput) : MainOutcome :=
  if !i.isRepo then .fatal false
  else if !i.headIsBranch then .fatal false
  else
    match i.toBranchNameRes with
    | .error _ => .fatal false
    | .ok _ =>
      if !i.openIls then .fatal false
      else if !i.fromBranchFound then .fatal false
      else
        match computedVersion i with
        | none => .fatal false
        | some version =>
          match computedFromVersion i with
          | none => .fatal false
          | some from_version =>
            let out_path := i.outputDirectory ++ "/" ++ upgradeFilename i from_version version
            if i.pathExists out_path && !i.clobber then .fatal false
            else
              match get_upgrades i.fromSnapshot i.toSnapshot with
              | .error _ => .fatal false
              | .ok upgrades =>
                if upgrades.length = 0 then .fatal false
                else mainAfterCreate i version from_version upgrades

/-! ## Concrete run inputs used as witnesses -/

/-- A run in which every check passes: a repository on branch
`rel_3_2_1`, source branch `rel_3_2_0`, no optional arguments, no
colliding output file, the concrete snapshots of this file, all input
files reading as one `SELECT` line. -/
def okInput : MainInput where
  isRepo := true
  headIsBranch := true
  toBranchNameRes := .ok (some "rel_3_2_1")
  openIls := true
  fromBranchFound := true
  fromBranchNameRes := .ok (some "rel_3_2_0")
  cliVersion := none
  cliFromVersion := none
  cliMoved := none
  cliAppendFile := none
  cliPrependFile := none
  outputDirectory := "Open-ILS/src/sql/Pg/version-upgrade"
  cliPrefixArg := none
  clobber := false
  review := false
  reviewOk := true
  pathExists := fun _ => false
  fromSnapshot := snapFrom
  toSnapshot := snapTo
  regexCompile := fun _ => some (fun _ => false)
  contents := fun _ => "SELECT 1;\n"

/-- The passing run, except that the computed output path already
exists on disk (and overwrite is not requested). -/
def collisionInput : MainInput := { okInput with pathExists := fun _ => true }

/-- The passing run, except that both branches carry the same snapshot,
so the new-upgrade list is empty. -/
def emptyDiffInput : MainInput := { okInput with toSnapshot := snapFrom }

/-- The passing run, except that a move pattern was supplied and the
external regex compiler rejects the built pattern. -/
def panicInput : MainInput :=
  { okInput with cliMoved := some ["("], regexCompile := fun _ => none }

end Mkdbupgrade

namespace Mkdbupgrade

/-! ## Theorems -/

/-! ### Properties of the newline splitter -/

theorem consHead_cons (c : Char) (l : List Char) (ls : List (List Char)) :
    consHead c (l :: ls) = (c :: l) :: ls := rfl

theorem consHead_ne_nil (c : Char) (xs : List (List Char)) : consHead c xs ≠ [] := by
  cases xs <;> simp [consHead]

theorem splitNl_cons (c : Char) (cs : List Char) :
    splitNl (c :: cs) = if c = '\n' then [] :: splitNl cs else consHead c (splitNl cs) := rfl

theorem splitNl_ne_nil (cs : List Char) : splitNl cs ≠ [] := by
  cases cs with
  | nil => simp [splitNl]
  | cons c cs =>
    rw [splitNl_cons]
    by_cases hc : c = '\n'
    · simp [hc]
    · rw [if_neg hc]
      exact consHead_ne_nil c _

/-- Re-appending a newline to every piece of the split reconstructs the
content followed by one extra newline. -/
theorem flatten_map_splitNl (cs : List Char) :
    ((splitNl cs).map (fun l => l ++ ['\n'])).flatten = cs ++ ['\n'] := by
  induction cs with
  | nil => rfl
  | cons c cs ih =>
    by_cases hc : c = '\n'
    · subst hc
      simpa [splitNl] using ih
    · obtain ⟨l, ls, hls⟩ := List.exists_cons_of_ne_nil (splitNl_ne_nil cs)
      rw [hls] at ih
      simp only [List.map_cons, List.flatten_cons] at ih
      simp only [splitNl, if_neg hc, hls, consHead_cons, List.map_cons,
        List.flatten_cons, List.cons_append, List.append_assoc] at ih ⊢
      rw [ih]

/-- No piece of the split contains a newline. -/
theorem splitNl_no_nl (cs : List Char) : ∀ l ∈ splitNl cs, '\n' ∉ l := by
  induction cs with
  | nil => simp [splitNl]
  | cons c cs ih =>
    by_cases hc : c = '\n'
    · rw [splitNl_cons, if_pos hc]
      intro l hl
      rcases List.mem_cons.mp hl with h | h
      · subst h; simp
      · exact ih l h
    · obtain ⟨l0, ls, hls⟩ := List.exists_cons_of_ne_nil (splitNl_ne_nil cs)
      rw [splitNl_cons, if_neg hc, hls, consHead_cons]
      intro l hl
      rcases List.mem_cons.mp hl with h | h
      · subst h
        have h0 : '\n' ∉ l0 := ih l0 (by rw [hls]; exact List.mem_cons_self _ _)
        intro hmem
        rcases List.mem_cons.mp hmem with h | h
        · exact hc h.symm
        · exact h0 h
      · exact ih l (by rw [hls]; exact List.mem_cons_of_mem _ h)

/-- Splitting content that ends with a newline: the split of the prefix,
plus a final empty piece. -/
theorem splitNl_concat_nl (cs : List Char) :
    splitNl (cs ++ ['\n']) = splitNl cs ++ [[]] := by
  induction cs with
  | nil => simp [splitNl]
  | cons c cs ih =>
    by_cases hc : c = '\n'
    · simp [splitNl, hc, ih]
    · obtain ⟨l, ls, hls⟩ := List.exists_cons_of_ne_nil (splitNl_ne_nil cs)
      simp [splitNl, hc, ih, hls, consHead_cons]

/-- Splitting around an explicit newline after a newline-free piece. -/
theorem splitNl_append_cons (l t : List Char) (h : '\n' ∉ l) :
    splitNl (l ++ '\n' :: t) = l :: splitNl t := by
  induction l with
  | nil => simp [splitNl]
  | cons c l ih =>
    have hc : c ≠ '\n' := fun e => h (e ▸ List.mem_cons_self c l)
    have ht : '\n' ∉ l := fun e => h (List.mem_cons_of_mem _ e)
    simp [splitNl, hc, ih ht, consHead_cons]

/-- Splitting the join of newline-terminated, newline-free pieces gives
the pieces back, plus a final empty piece. -/
theorem splitNl_flatten (L : List (List Char)) (h : ∀ l ∈ L, '\n' ∉ l) :
    splitNl ((L.map (fun l => l ++ ['\n'])).flatten) = L ++ [[]] := by
  induction L with
  | nil => simp [splitNl]
  | cons l L ih =>
    simp only [List.map_cons, List.flatten_cons, List.append_assoc, List.singleton_append]
    rw [splitNl_append_cons l _ (h l (List.mem_cons_self _ _)),
      ih (fun x hx => h x (List.mem_cons_of_mem _ hx))]
    rfl

/-- `split_terminator` of the join of newline-terminated, newline-free
pieces recovers exactly the pieces. -/
theorem splitTerminatorNl_flatten (L : List (List Char)) (h : ∀ l ∈ L, '\n' ∉ l) :
    splitTerminatorNl ((L.map (fun l => l ++ ['\n'])).flatten) = L := by
  unfold splitTerminatorNl
  rw [splitNl_flatten L h]
  simp

/-- `split_terminator` of content ending in a newline is the plain split
of the content before that newline. -/
theorem splitTerminatorNl_concat_nl (cs : List Char) :
    splitTerminatorNl (cs ++ ['\n']) = splitNl cs := by
  unfold splitTerminatorNl
  rw [splitNl_concat_nl]
  simp

/-- When nonempty content does not end with a newline, the split's final
piece is not empty. -/
theorem splitNl_getLast_ne (cs : List Char) (h0 : cs ≠ [])
    (h1 : cs.getLast? ≠ some '\n') : (splitNl cs).getLast? ≠ some [] := by
  induction cs with
  | nil => exact absurd rfl h0
  | cons c cs ih =>
    cases cs with
    | nil =>
      have hc : c ≠ '\n' := by simpa using h1
      rw [splitNl_cons, if_neg hc]
      simp [splitNl, consHead]
    | cons d ds =>
      have h1' : (d :: ds).getLast? ≠ some '\n' := by
        rwa [List.getLast?_cons_cons] at h1
      have ihr := ih (by simp) h1'
      obtain ⟨l, ls, hls⟩ := List.exists_cons_of_ne_nil (splitNl_ne_nil (d :: ds))
      rw [hls] at ihr
      by_cases hc : c = '\n'
      · rw [splitNl_cons, if_pos hc, hls, List.getLast?_cons_cons]
        exact ihr
      · rw [splitNl_cons, if_neg hc, hls, consHead_cons]
        cases ls with
        | nil => simp
        | cons l2 ls2 =>
          rw [List.getLast?_cons_cons]
          rwa [List.getLast?_cons_cons] at ihr

/-- For nonempty content without a trailing newline, `split_terminator`
coincides with `split`. -/
theorem splitTerminatorNl_of_no_trailing (cs : List Char) (h0 : cs ≠ [])
    (h1 : cs.getLast? ≠ some '\n') : splitTerminatorNl cs = splitNl cs := by
  unfold splitTerminatorNl
  exact if_neg (splitNl_getLast_ne cs h0 h1)

/-- Every piece `split_terminator` yields is a piece of the plain split. -/
theorem splitTerminatorNl_subset (cs : List Char) :
    ∀ l ∈ splitTerminatorNl cs, l ∈ splitNl cs := by
  intro l hl
  unfold splitTerminatorNl at hl
  split at hl
  · exact (List.dropLast_sublist _).subset hl
  · exact hl

/-! ### The two FileWriter modes -/

/-- C3: upgrade-mode copy writes each line of the file followed by a
newline except lines beginning with `BEGIN;` or `COMMIT;`, which are
dropped: the lines of the output are exactly the non-boundary lines of
the input; on the example file `BEGIN;`, `SELECT 1;`, `COMMIT;` the
upgrade-mode copy is exactly `SELECT 1;` plus a newline, while the
whole-file copy reproduces all three lines verbatim. -/
theorem write_upgrade_drops_txn_lines :
    (∀ cs : List Char, splitTerminatorNl (write_upgradeL cs) =
      (splitTerminatorNl cs).filter (fun l => !(isTxnBoundary l))) ∧
    write_upgrade "BEGIN;\nSELECT 1;\nCOMMIT;\n" = "SELECT 1;\n" ∧
    write_file "BEGIN;\nSELECT 1;\nCOMMIT;\n" = "BEGIN;\nSELECT 1;\nCOMMIT;\n" := by
  refine ⟨?_, by decide, rfl⟩
  intro cs
  unfold write_upgradeL
  apply splitTerminatorNl_flatten
  intro l hl
  exact splitNl_no_nl cs l (splitTerminatorNl_subset cs l (List.mem_of_mem_filter hl))

/-- C5: whole-file copy writes the content unchanged: the output equals
the input as a string, hence byte-for-byte on the underlying data. -/
theorem write_file_verbatim (s : String) :
    write_file s = s ∧ (write_file s).data = s.data := ⟨rfl, rfl⟩

/-- C10: when no line of the input begins with `BEGIN;` or `COMMIT;`,
the upgrade-mode copy of nonempty content that does not end with a
newline is the content with a final newline appended, and the copy of
content that does end with a newline is the content itself. -/
theorem write_upgrade_terminates_last_line (s : String)
    (hb : ∀ l ∈ splitTerminatorNl s.data, isTxnBoundary l = false) :
    (s.data ≠ [] → s.data.getLast? ≠ some '\n' → write_upgrade s = s ++ "\n") ∧
    (∀ cs, s.data = cs ++ ['\n'] → write_upgrade s = s) := by
  have hfilter : (splitTerminatorNl s.data).filter (fun l => !(isTxnBoundary l)) =
      splitTerminatorNl s.data :=
    List.filter_eq_self.mpr (fun a ha => by rw [hb a ha]; rfl)
  constructor
  · intro h0 h1
    have hsplit : splitTerminatorNl s.data = splitNl s.data :=
      splitTerminatorNl_of_no_trailing _ h0 h1
    show (⟨write_upgradeL s.data⟩ : String) = s ++ "\n"
    unfold write_upgradeL
    rw [hfilter, hsplit, flatten_map_splitNl]
    cases s with
    | mk d => rfl
  · intro cs hcs
    have hterm : splitTerminatorNl s.data = splitNl cs := by
      rw [hcs]; exact splitTerminatorNl_concat_nl cs
    show (⟨write_upgradeL s.data⟩ : String) = s
    unfold write_upgradeL
    rw [hfilter, hterm, flatten_map_splitNl, ← hcs]

/-- Witness for C10: a one-line file without a trailing newline gains
one; a one-line file with a trailing newline is copied unchanged. -/
theorem write_upgrade_terminates_last_line_witness :
    write_upgrade "SELECT 1;" = "SELECT 1;" ++ "\n" ∧
    write_upgrade "SELECT 9;\n" = "SELECT 9;\n" := by
  have h1 := write_upgrade_terminates_last_line "SELECT 1;" (by decide)
  have h2 := write_upgrade_terminates_last_line "SELECT 9;\n" (by decide)
  exact ⟨h1.1 (by decide) (by decide), h2.2 "SELECT 9;".data (by decide)⟩

/-! ### Version extraction -/

/-- C6: version extraction on the spec's examples: `rel_3_2_1` gives
`3.2.1`, `rel_12_0_5-hotfix` gives `12.0.5`, `main` and `v_1_2` (only
two components) give an absent result, as do an unnamed branch and a
failed name lookup. -/
theorem get_branch_version_examples :
    get_branch_version (Except.ok (some "rel_3_2_1")) = some "3.2.1" ∧
    get_branch_version (Except.ok (some "rel_12_0_5-hotfix")) = some "12.0.5" ∧
    get_branch_version (Except.ok (some "main")) = none ∧
    get_branch_version (Except.ok (some "v_1_2")) = none ∧
    get_branch_version (Except.ok none) = none ∧
    get_branch_version (Except.error ()) = none := by
  exact ⟨by decide, by decide, by decide, by decide, rfl, rfl⟩

/-! ### The assembly loop and the move pattern -/

/-- Closed form of the upgrade loop when a move pattern is present: the
output grows by the upgrade-mode copies of the non-matching paths in
order, and the moved list grows by the matching paths in order. -/
theorem upgradeLoop_some_spec (re : String → Bool) (c : String → String)
    (l : List String) (out : String) (moved : List String) :
    upgradeLoop (some re) c l (out, moved) =
      (out ++ joinStr ((l.filter (fun f => !(re f))).map (fun f => write_upgrade (c f))),
       moved ++ l.filter re) := by
  induction l generalizing out moved with
  | nil => simp [upgradeLoop, joinStr, String.append_empty]
  | cons file rest ih =>
    by_cases hre : re file
    · simp only [upgradeLoop, hre, if_pos, List.filter_cons, Bool.not_true,
        Bool.false_eq_true, if_neg, ite_true, ite_false]
      rw [ih]
      simp [hre, List.append_assoc]
    · simp only [upgradeLoop, hre, List.filter_cons, Bool.not_false,
        ite_true, ite_false, Bool.false_eq_true, if_neg]
      rw [ih]
      simp [hre, joinStr, String.append_assoc]

/-- The fold of `buildPattern` once the first fragment has been pushed:
each later fragment arrives behind a pipe. -/
theorem buildPattern_foldl_true (xs : List String) : ∀ s : String,
    (xs.foldl (fun acc upgrade =>
      ((if acc.2 then acc.1 ++ "|" else acc.1) ++ upgrade, true)) (s, true)).1 =
    s ++ pipeJoin xs := by
  induction xs with
  | nil => intro s; simp [pipeJoin, String.append_empty]
  | cons y ys ih =>
    intro s
    simp only [List.foldl_cons, ite_true, if_pos]
    rw [ih (s ++ "|" ++ y)]
    simp [pipeJoin, String.append_assoc]

/-- The spec-side OR join, related to its pipe-prefixed tail. -/
theorem orJoinSpec_cons (x : String) (xs : List String) :
    orJoinSpec (x :: xs) = x ++ pipeJoin xs := by
  induction xs generalizing x with
  | nil => simp [orJoinSpec, pipeJoin, String.append_empty]
  | cons y ys ih =>
    show x ++ "|" ++ orJoinSpec (y :: ys) = _
    rw [ih y]
    simp [pipeJoin, String.append_assoc]

/-- The pattern built by `main.rs` is the OR of the supplied fragments
inside a non-capturing group. -/
theorem buildPattern_eq (v : List String) :
    buildPattern v = "(?:" ++ orJoinSpec v ++ ")" := by
  cases v with
  | nil => rfl
  | cons x xs =>
    unfold buildPattern
    simp only [List.foldl_cons, Bool.false_eq_true, if_neg, ite_false]
    rw [buildPattern_foldl_true xs ("(?:" ++ x), orJoinSpec_cons]
    simp [String.append_assoc]

/-- Every run either stops with a diagnosed failure before the output
file is created, or reaches the post-creation stage with both versions
derived, no output-path collision, and a nonempty new-upgrade list. -/
theorem main_model_shape (i : MainInput) :
    main_model i = MainOutcome.fatal false ∨
    ∃ version from_version upgrades,
      computedVersion i = some version ∧
      computedFromVersion i = some from_version ∧
      (i.pathExists (i.outputDirectory ++ "/" ++ upgradeFilename i from_version version)
        && !i.clobber) = false ∧
      get_upgrades i.fromSnapshot i.toSnapshot = Except.ok upgrades ∧
      upgrades ≠ [] ∧
      main_model i = mainAfterCreate i version from_version upgrades := by
  unfold main_model
  cases i.isRepo
  · exact Or.inl rfl
  · cases i.headIsBranch
    · exact Or.inl rfl
    · cases i.toBranchNameRes with
      | error e => exact Or.inl rfl
      | ok nameOpt =>
        cases i.openIls
        · exact Or.inl rfl
        · cases i.fromBranchFound
          · exact Or.inl rfl
          · cases hv : computedVersion i with
            | none => exact Or.inl rfl
            | some version =>
              cases hfv : computedFromVersion i with
              | none => exact Or.inl rfl
              | some from_version =>
                cases hcol : i.pathExists (i.outputDirectory ++ "/"
                    ++ upgradeFilename i from_version version) && !i.clobber
                · cases hg : get_upgrades i.fromSnapshot i.toSnapshot with
                  | error e => exact Or.inl (by simp [hcol])
                  | ok upgrades =>
                    cases upgrades with
                    | nil => exact Or.inl (by simp [hcol])
                    | cons u us =>
                      refine Or.inr ⟨version, from_version, u :: us,
                        rfl, rfl, hcol, rfl, by simp, ?_⟩
                      simp [hcol]
                · exact Or.inl (by simp [hcol])

/-- C4: the assembly loop partitions the new-upgrade list by the move
pattern: the moved list is exactly the matching paths in list order,
the main-section output appends the upgrade-mode copies of the
non-matching paths in list order; both partitions are sublists of the
input list; and on the example list `[a, b, c, d]` with a pattern
matching `b` and `d`, the main section emits `a` then `c` and the moved
list is `[b, d]`. -/
theorem moved_partition (re : String → Bool) (c : String → String)
    (l : List String) (out : String) :
    (upgradeLoop (some re) c l (out, [])).2 = l.filter re ∧
    (upgradeLoop (some re) c l (out, [])).1 =
      out ++ joinStr ((l.filter (fun f => !(re f))).map (fun f => write_upgrade (c f))) ∧
    (l.filter re).Sublist l ∧
    (l.filter (fun f => !(re f))).Sublist l ∧
    upgradeLoop (some (fun s => s == "b" || s == "d")) (fun f => f)
      ["a", "b", "c", "d"] ("", []) = ("a\nc\n", ["b", "d"]) := by
  refine ⟨?_, ?_, List.filter_sublist _, List.filter_sublist _, by decide⟩
  · rw [upgradeLoop_some_spec]
    simp
  · rw [upgradeLoop_some_spec]

/-- C7: whenever the computed output path exists on disk and overwrite
was not requested, the run ends in a diagnosed non-zero exit with the
output file never created (`created = false`), so the pre-existing file
is untouched. -/
theorem collision_aborts (i : MainInput) (p : String)
    (hp : computedOutPath i = some p)
    (hex : i.pathExists p = true)
    (hcl : i.clobber = false) :
    main_model i = MainOutcome.fatal false := by
  rcases main_model_shape i with h | ⟨version, from_version, upgrades, hv, hfv, hcol, _, _, _⟩
  · exact h
  · exfalso
    have hpeq : p = i.outputDirectory ++ "/" ++ upgradeFilename i from_version version := by
      unfold computedOutPath at hp
      rw [hv, hfv] at hp
      exact (Option.some_inj.mp hp).symm
    rw [hpeq] at hex
    rw [hex, hcl] at hcol
    simp at hcol

/-- Witness for C7: in the concrete run whose output path already
exists without overwrite, the model reports a diagnosed failure and
never creates the output file. -/
theorem collision_aborts_witness :
    main_model collisionInput = MainOutcome.fatal false :=
  collision_aborts collisionInput
    "Open-ILS/src/sql/Pg/version-upgrade/3.2.0-3.2.1-upgrade-db.sql"
    (by rfl) (by rfl) (by rfl)

/-- C8: whenever the new-upgrade diff of the two branches is the empty
list, the run ends in a diagnosed non-zero exit and the output file is
never created. -/
theorem empty_upgrades_aborts (i : MainInput)
    (h : get_upgrades i.fromSnapshot i.toSnapshot = Except.ok []) :
    main_model i = MainOutcome.fatal false := by
  rcases main_model_shape i with hs | ⟨version, from_version, upgrades, _, _, _, hg, hne, _⟩
  · exact hs
  · exact absurd (Except.ok.inj (hg.symm.trans h)) hne

/-- Witness for C8: with both branches carrying the same snapshot the
diff is empty and the run fails without touching the filesystem. -/
theorem empty_upgrades_aborts_witness :
    main_model emptyDiffInput = MainOutcome.fatal false :=
  empty_upgrades_aborts emptyDiffInput (by rfl)

/-- C9: the move pattern is the OR of the supplied fragments inside a
non-capturing group; when the external regex compiler rejects that
pattern, the run can only end in a pre-creation diagnosed failure or in
a panic after the output file was created — never in a diagnosed error
naming the bad pattern, and never successfully. -/
theorem moved_pattern_unwrap (i : MainInput) (frags : List String)
    (hm : i.cliMoved = some frags)
    (hc : i.regexCompile (buildPattern frags) = none) :
    buildPattern frags = "(?:" ++ orJoinSpec frags ++ ")" ∧
    (main_model i = MainOutcome.fatal false ∨
      main_model i = MainOutcome.panicked true) ∧
    (∀ s, main_model i ≠ MainOutcome.ok s) := by
  have hd : main_model i = MainOutcome.fatal false ∨
      main_model i = MainOutcome.panicked true := by
    rcases main_model_shape i with h | ⟨version, from_version, upgrades, _, _, _, _, _, h6⟩
    · exact Or.inl h
    · right
      rw [h6]
      unfold mainAfterCreate
      simp [hm, hc]
  refine ⟨buildPattern_eq frags, hd, ?_⟩
  intro s hs
  rcases hd with h | h <;> rw [h] at hs <;> exact MainOutcome.noConfusion hs

/-- Witness for C9: the concrete run supplying the single fragment `(`
with a compiler that rejects the built pattern ends in a panic (the
additional final conjunct pins the panic down at this input). -/
theorem moved_pattern_unwrap_witness :
    (buildPattern ["("] = "(?:" ++ orJoinSpec ["("] ++ ")" ∧
      (main_model panicInput = MainOutcome.fatal false ∨
        main_model panicInput = MainOutcome.panicked true) ∧
      (∀ s, main_model panicInput ≠ MainOutcome.ok s)) ∧
    main_model panicInput = MainOutcome.panicked true :=
  ⟨moved_pattern_unwrap panicInput ["("] rfl rfl, by rfl⟩

/-- C1: for every pair of branch snapshots whose enumerations are the
source list `A` and the target list `B`, `get_upgrades` returns exactly
those paths of `B` that do not occur (by string equality) anywhere in
`A`; the result is a sublist of `B`, so `B`'s relative order is
preserved; and diffing a branch against itself yields the empty list. -/
theorem get_upgrades_diff (f t : GObj) (A B : List String)
    (hA : get_branch_upgrades f = Except.ok A)
    (hB : get_branch_upgrades t = Except.ok B) :
    get_upgrades f t = Except.ok (B.filter (fun item => !(A.contains item))) ∧
    (∀ x, x ∈ B.filter (fun item => !(A.contains item)) ↔ (x ∈ B ∧ x ∉ A)) ∧
    (B.filter (fun item => !(A.contains item))).Sublist B ∧
    get_upgrades f f = Except.ok [] := by
  refine ⟨by simp [get_upgrades, hA, hB], ?_, List.filter_sublist _, ?_⟩
  · intro x
    simp [List.mem_filter, List.contains, List.elem_iff]
  · simp only [get_upgrades, hA]
    have : A.filter (fun item => !(A.contains item)) = [] :=
      List.filter_eq_nil_iff.mpr (fun a ha => by
        simp [List.contains, List.elem_iff, ha])
    rw [this]

/-- Witness for C1: the diff of the two concrete snapshots is exactly the
two paths new in the target, and the self-diff is empty. -/
theorem get_upgrades_diff_witness :
    get_upgrades snapFrom snapTo =
      Except.ok ["Open-ILS/src/sql/Pg/upgrade/0003.sql",
                 "Open-ILS/src/sql/Pg/upgrade/0004.sql"] ∧
    get_upgrades snapFrom snapFrom = Except.ok [] := by
  have h := get_upgrades_diff snapFrom snapTo
    ["Open-ILS/src/sql/Pg/upgrade/0001.sql", "Open-ILS/src/sql/Pg/upgrade/0002.sql"]
    ["Open-ILS/src/sql/Pg/upgrade/0001.sql", "Open-ILS/src/sql/Pg/upgrade/0002.sql",
     "Open-ILS/src/sql/Pg/upgrade/0003.sql", "Open-ILS/src/sql/Pg/upgrade/0004.sql"]
    (by rfl) (by rfl)
  exact ⟨h.1.trans (by rfl), h.2.2.2⟩

/-- C2, counterexample: in the empty snapshot the fixed directory
`Open-ILS/src/sql/Pg/upgrade` does not exist, and `get_branch_upgrades`
returns an error there, not the empty list the claim promises. -/
theorem get_branch_upgrades_missing_dir_errors :
    getPath (GObj.tree GEntries.nil) upgradeDirComponents = Except.error () ∧
    get_branch_upgrades (GObj.tree GEntries.nil) = Except.error () ∧
    get_branch_upgrades (GObj.tree GEntries.nil) ≠ Except.ok [] := by
  refine ⟨rfl, rfl, ?_⟩
  simp [get_branch_upgrades, getPath, upgradeDirComponents, lookupEntry]

/-- C2, amended: a failed lookup of the fixed directory (the directory
does not exist in the snapshot) is returned as an error; the empty list
is returned instead when the path exists but is not a directory. -/
theorem get_branch_upgrades_error_propagation (root : GObj) :
    (getPath root upgradeDirComponents = Except.error () →
      get_branch_upgrades root = Except.error ()) ∧
    (getPath root upgradeDirComponents = Except.ok GObj.blob →
      get_branch_upgrades root = Except.ok []) := by
  constructor <;> intro h <;> simp [get_branch_upgrades, h]

/-- Witness for the amended C2: the empty snapshot's enumeration is an
error; the snapshot whose upgrade path is a blob enumerates to `[]`. -/
theorem get_branch_upgrades_error_propagation_witness :
    get_branch_upgrades (GObj.tree GEntries.nil) = Except.error () ∧
    get_branch_upgrades snapUpgBlob = Except.ok [] :=
  ⟨(get_branch_upgrades_error_propagation (GObj.tree GEntries.nil)).1 rfl,
   (get_branch_upgrades_error_propagation snapUpgBlob).2 rfl⟩

end Mkdbupgrade
